import Mathlib

/-!
# Verification of the `e` error-annotation package

Shallow embedding of the Go package `e` (error wrapper with stack-trace
frames, structured-log and JSON rendering, and panic recovery) together
with proofs about its operations.

Go strings are modelled as lists of characters (`GoStr`); Go `nil` values
of pointer/interface/slice type are modelled with `Option`/`[]`; the
runtime's stack-inspection primitives (`runtime.Caller`, `runtime.Callers`)
are modelled by passing their results as explicit parameters.
-/

set_option autoImplicit false

namespace E

/-- Go strings, modelled as lists of characters. -/
abbrev GoStr := List Char

/-- Converts a Lean string literal into the `GoStr` model. -/
def gs (s : String) : GoStr := s.toList

/-- Index of the last occurrence of character `c` in a string, `none` when
absent.  Models Go `strings.LastIndex(s, sep)` for a one-character `sep`
(`-1` becomes `none`). -/
def lastIndex? (c : Char) : GoStr → Option Nat
  | [] => none
  | x :: xs =>
    match lastIndex? c xs with
    | some i => some (i + 1)
    | none => if x = c then some 0 else none

/-- Does `s` start with `pat`?  Models Go `strings.HasPrefix(s, pat)`. -/
def strHasPre (pat s : GoStr) : Bool :=
  match pat, s with
  | [], _ => true
  | _ :: _, [] => false
  | p :: ps, c :: cs => p = c && strHasPre ps cs

/-- Does `s` contain `pat` as a contiguous substring?
Models Go `strings.Contains(s, pat)`. -/
def strContains (pat s : GoStr) : Bool :=
  match s with
  | [] => strHasPre pat []
  | _ :: cs => strHasPre pat s || strContains pat cs

/-- `simplifyFuncName` (src/unnamed/part_004, used by the current revision):
trims package and receiver prefixes from a function name.  Translated from:

```go
func simplifyFuncName(fn string) string {
    if i := strings.LastIndex(fn, "/"); i != -1 { fn = fn[i+1:] }
    if i := strings.LastIndex(fn, "."); i != -1 { return fn[i+1:] }
    return fn
}
``` -/
def simplifyFuncName (fn : GoStr) : GoStr :=
  let fn1 :=
    match lastIndex? '/' fn with
    | some i => fn.drop (i + 1)
    | none => fn
  match lastIndex? '.' fn1 with
  | some i => fn1.drop (i + 1)
  | none => fn1

/-- A structured field value attached to an error (Go `any`), restricted to
the ground shapes the package's tests exercise. -/
inductive Val where
  | vStr (s : GoStr)
  | vInt (n : Int)
  | vBool (b : Bool)
deriving DecidableEq, Repr

/-- `fieldKV` (src/unnamed/part_002): one key/value pair. -/
structure FieldKV where
  key : GoStr
  value : Val
deriving DecidableEq, Repr

/-- `Fields` (src/unnamed/part_002): ordered collection of key/value pairs. -/
structure Fields where
  list : List FieldKV
deriving DecidableEq, Repr

/-- `frame` (src/unnamed/part_004): a single captured stack frame. -/
structure Frame where
  funcName : GoStr
  file : GoStr
  line : Int
  message : GoStr
deriving DecidableEq, Repr

/-- A Go `error` value as this package can encounter it: a plain error
(e.g. `errors.New`), a generic wrapping error that exposes `Unwrap`
(e.g. `fmt.Errorf` with `%w`), or this package's `*ErrorWrapper`
(`err` field, `frames` field, optional `fields` pointer from
src/unnamed/part_002). -/
inductive GoError where
  | plain (msg : GoStr)
  | wrapped (msg : GoStr) (inner : GoError)
  | ew (err : GoError) (frames : List Frame) (fields : Option Fields)
deriving DecidableEq, Repr

/-- View of an `*ErrorWrapper` value (its three fields). -/
structure EWView where
  err : GoError
  frames : List Frame
  fields : Option Fields
deriving DecidableEq, Repr

/-- Re-assembles an `*ErrorWrapper` view into an error value. -/
def EWView.toGoError (w : EWView) : GoError :=
  .ew w.err w.frames w.fields

/-- Models `errors.As(err, &ew)` with target type `*ErrorWrapper`: walks the
`Unwrap` chain and returns the first (outermost) `*ErrorWrapper` found. -/
def asErrorWrapper : GoError → Option EWView
  | .plain _ => none
  | .wrapped _ inner => asErrorWrapper inner
  | .ew e fs fl => some ⟨e, fs, fl⟩

/-- The `Error()` method: a plain or generic error yields its own message;
`(*ErrorWrapper).Error()` returns `e.err.Error()` (src/errors.go line 64). -/
def errMsg : GoError → GoStr
  | .plain m => m
  | .wrapped m _ => m
  | .ew cause _ _ => errMsg cause

/-- The `frames` field of an error when it is an `*ErrorWrapper`, `[]`
otherwise. -/
def framesOfE : GoError → List Frame
  | .ew _ fs _ => fs
  | _ => []

/-- `framesOfE` lifted over a possibly-nil error. -/
def framesOfOpt : Option GoError → List Frame
  | some e => framesOfE e
  | none => []

/-! ## Wrap operations (src/errors.go, src/unnamed/part_003) -/

/-- Result of `runtime.Caller(skip)` together with the name
`runtime.FuncForPC(pc).Name()` would yield for the returned pc.
When `ok` is false the pc is zero and that name is the empty string. -/
structure CallerResult where
  ok : Bool
  funcName : GoStr
  file : GoStr
  line : Int
deriving DecidableEq, Repr

/-- The frame built by `wrapWithSkip` from one `runtime.Caller` result:
on failure, file and line fall back to `"unknown", 0` (and the function name
resolves to the empty string); the name is simplified. -/
def captureFrame (c : CallerResult) (msg : GoStr) : Frame :=
  { funcName := simplifyFuncName (if c.ok then c.funcName else [])
    file := if c.ok then c.file else gs "unknown"
    line := if c.ok then c.line else 0
    message := msg }

/-- `wrapWithSkip` (src/unnamed/part_003 lines 42-77; src/errors.go lines
37-61 is the same merge logic with `flds = nil`): captures a frame, then
either extends an existing `*ErrorWrapper` found by `errors.As`
(prepending the frame, appending non-empty field sets) or builds a new one.
The runtime capture is passed in as `c`. -/
def wrapWithSkip (err : GoError) (c : CallerResult) (msg : GoStr)
    (flds : Option Fields) : EWView :=
  let fr := captureFrame c msg
  match asErrorWrapper err with
  | some w =>
    let fields' :=
      match flds with
      | some fl =>
        if fl.list ≠ [] then
          some ⟨(match w.fields with | some f => f.list | none => []) ++ fl.list⟩
        else w.fields
      | none => w.fields
    ⟨w.err, fr :: w.frames, fields'⟩
  | none => ⟨err, [fr], flds⟩

/-- `Wrap` (src/errors.go lines 21-26): nil in, nil out; otherwise wrap with
an empty message. -/
def Wrap (err : Option GoError) (c : CallerResult) : Option GoError :=
  match err with
  | none => none
  | some e => some (wrapWithSkip e c [] none).toGoError

/-- `WrapWithMessage` (src/errors.go lines 29-34): nil in, nil out;
otherwise wrap, attaching `msg` to the captured frame. -/
def WrapWithMessage (err : Option GoError) (c : CallerResult) (msg : GoStr) :
    Option GoError :=
  match err with
  | none => none
  | some e => some (wrapWithSkip e c msg none).toGoError

/-- `WrapWithFields` (src/unnamed/part_003 lines 28-39): nil in, nil out;
otherwise concatenates all variadic field sets in order and wraps with the
merged (possibly empty, but non-nil) field set. -/
def WrapWithFields (err : Option GoError) (c : CallerResult)
    (fields : List Fields) : Option GoError :=
  match err with
  | none => none
  | some e =>
    let merged : Fields := ⟨(fields.map Fields.list).flatten⟩
    some (wrapWithSkip e c [] (some merged)).toGoError

/-- `Field` (src/unnamed/part_002 lines 42-44): a one-pair field set. -/
def Field (key : GoStr) (value : Val) : Fields :=
  ⟨[⟨key, value⟩]⟩

/-- The `for` loop of `Fields.Get`: first pair with key `k` wins. -/
def getLoop (k : GoStr) : List FieldKV → Option Val
  | [] => none
  | kv :: rest => if kv.key = k then some kv.value else getLoop k rest

/-- `Fields.Get` (src/unnamed/part_002 lines 30-37): value of the first
pair with the given key; Go's `nil` result for a missing key is `none`. -/
def Fields.Get (f : Fields) (k : GoStr) : Option Val :=
  getLoop k f.list

/-! ## Structured-log and JSON rendering (src/errors.go) -/

/-- One `map[string]any` entry of the `stack_trace` value.  The key domain
is fixed (`function`, `file`, `line`, `message`); `Option` records which
keys are present in the map. -/
structure TraceEntry where
  function : Option GoStr
  file : Option GoStr
  line : Option Int
  message : Option GoStr
deriving DecidableEq, Repr

/-- A `slog` attribute value as this package produces them:
`slog.String` or the `slog.Any` stack-trace list. -/
inductive SlogValue where
  | vStr (s : GoStr)
  | vTrace (entries : List TraceEntry)
deriving DecidableEq, Repr

/-- One `slog.Attr` inside the produced group. -/
structure SlogAttr where
  key : GoStr
  val : SlogValue
deriving DecidableEq, Repr

/-- The stack-trace map built for one frame by `SlogGroup`
(src/errors.go lines 96-103): `function`, `file`, `line` always,
`message` only when non-empty. -/
def frameEntry (f : Frame) : TraceEntry :=
  { function := some f.funcName
    file := some f.file
    line := some f.line
    message := if f.message = [] then none else some f.message }

/-- `SlogGroup` (src/errors.go lines 79-122): the group name together with
the ordered attribute list of the returned `slog.Group`. -/
def SlogGroup (err : Option GoError) : GoStr × List SlogAttr :=
  match err with
  | none =>
    (gs "error",
      [⟨gs "error_text", .vStr (gs "nil")⟩,
       ⟨gs "stack_trace", .vTrace [⟨none, none, none, some (gs "nil")⟩]⟩])
  | some e =>
    match asErrorWrapper e with
    | none =>
      (gs "error", [⟨gs "error_text", .vStr (errMsg e)⟩])
    | some w =>
      if w.frames = [] then
        (gs "error", [⟨gs "error_text", .vStr (errMsg w.err)⟩])
      else
        (gs "error",
          [⟨gs "error_text", .vStr (errMsg w.err)⟩,
           ⟨gs "stack_trace", .vTrace (w.frames.map frameEntry)⟩])

/-- First attribute with the given key in a rendered group. -/
def lookupAttr (k : GoStr) : List SlogAttr → Option SlogValue
  | [] => none
  | a :: rest => if a.key = k then some a.val else lookupAttr k rest

/-- `frameJSON` (src/errors.go lines 143-148): exported form of one frame.
`message` carries `omitempty`, so it is present in the serialized text only
when non-empty. -/
structure FrameJSON where
  file : GoStr
  function : GoStr
  line : Int
  message : GoStr
deriving DecidableEq, Repr

/-- `errorJSON` (src/errors.go lines 151-154): root JSON object. -/
structure ErrorJSON where
  error : GoStr
  stack_trace : List FrameJSON
deriving DecidableEq, Repr

/-- `MarshalJSON` (src/errors.go lines 125-140): serializes an
`*ErrorWrapper` into the root message plus the frame list. -/
def MarshalJSON (w : EWView) : ErrorJSON :=
  { error := errMsg w.err
    stack_trace := w.frames.map fun f => ⟨f.file, f.funcName, f.line, f.message⟩ }

/-- Key-presence view of one serialized `frameJSON` object: `message` has
`omitempty`, the other keys are always present.  Used to compare the JSON
stack trace with the slog stack trace. -/
def toEntry (fj : FrameJSON) : TraceEntry :=
  { function := some fj.function
    file := some fj.file
    line := some fj.line
    message := if fj.message = [] then none else some fj.message }

/-! ## Panic recovery (src/recover.go) -/

/-- `RecoverOpts` (src/recover.go lines 15-27). -/
structure RecoverOpts where
  WithoutStack : Bool
  RecoverOnly : Bool
  Fatal : Bool
deriving DecidableEq, Repr

/-- The all-defaults configuration (`&RecoverOpts{}`, Go zero value). -/
def defaultOpts : RecoverOpts := ⟨false, false, false⟩

/-- A value recovered from a panic: either an `error` or any other value,
carried as the text `fmt.Sprintf("%v", v)` would produce for it. -/
inductive PanicVal where
  | errVal (e : GoError)
  | other (text : GoStr)
deriving DecidableEq, Repr

/-- `formatPanicMessage` (src/recover.go lines 96-103). -/
def formatPanicMessage : PanicVal → GoStr
  | .errVal e => errMsg e
  | .other t => t

/-- One raw frame as yielded by `runtime.CallersFrames` before filtering. -/
structure RawFrame where
  function : GoStr
  file : GoStr
  line : Int
deriving DecidableEq, Repr

/-- `isInternalFrame` (src/recover.go lines 141-148). -/
def isInternalFrame (function : GoStr) : Bool :=
  strHasPre (gs "runtime.") function ||
    strContains (gs "/log/slog.") function ||
    strContains (gs "log/slog.") function ||
    strContains (gs "encoding/json.") function ||
    strContains (gs ".Recover") function ||
    strContains (gs ".SlogGroup") function

/-- `captureStackTrace` (src/recover.go lines 107-135): walks at most
`maxDepth = 32` program counters of the call stack above the fixed skip
depth (`callers` is the post-skip stack), drops internal frames, and
stores each surviving frame with a simplified name and no message. -/
def captureStackTrace (callers : List RawFrame) : List Frame :=
  ((callers.take 32).filter fun fr => ¬ isInternalFrame fr.function).map
    fun fr => ⟨simplifyFuncName fr.function, fr.file, fr.line, []⟩

/-- `WrapRecovered` (src/recover.go lines 32-44): always builds a fresh
`*ErrorWrapper` around a new plain error carrying the panic message; the
stack (`captured` stands for the `captureStackTrace()` result) is attached
unless `WithoutStack` is set; nil options mean all defaults. -/
def WrapRecovered (opts : Option RecoverOpts) (r : PanicVal)
    (captured : List Frame) : GoError :=
  let message := formatPanicMessage r
  let stack : List Frame :=
    match opts with
    | none => captured
    | some o => if o.WithoutStack then [] else captured
  .ew (.plain message) stack none

/-- Observable outcome of one `Recover` call: the errors passed to the
callback (in order) and whether `os.Exit(1)` was reached. -/
structure RecoverOutcome where
  callbackErrs : List GoError
  exited : Bool
deriving DecidableEq, Repr

/-- `Recover` (src/recover.go lines 53-65).  `recovered` is the result of
the `recover()` builtin (`none` when no panic is active); `captured` is the
stack `captureStackTrace` yields at that point. -/
def Recover (opts : Option RecoverOpts) (recovered : Option PanicVal)
    (captured : List Frame) : RecoverOutcome :=
  match recovered with
  | none => ⟨[], false⟩
  | some r =>
    let err := WrapRecovered opts r captured
    let calls : List GoError :=
      match opts with
      | none => [err]
      | some o => if o.RecoverOnly then [] else [err]
    let ex : Bool :=
      match opts with
      | none => false
      | some o => o.Fatal
    ⟨calls, ex⟩

/-- Observable outcome of one `RecoverToChannel` call: the value the
non-blocking send placed into the channel (if any) and whether
`os.Exit(1)` was reached. -/
structure ChanOutcome where
  sent : Option GoError
  exited : Bool
deriving DecidableEq, Repr

/-- `RecoverToChannel` (src/recover.go lines 76-93).  The
`select`/`default` non-blocking send is modelled by `canSend`: true iff
the channel can accept a value immediately (buffer space free or a
receiver ready); otherwise the error is dropped. -/
def RecoverToChannel (opts : Option RecoverOpts) (recovered : Option PanicVal)
    (captured : List Frame) (canSend : Bool) : ChanOutcome :=
  match recovered with
  | none => ⟨none, false⟩
  | some r =>
    let err := WrapRecovered opts r captured
    let sent : Option GoError :=
      match opts with
      | none => if canSend then some err else none
      | some o =>
        if o.RecoverOnly then none
        else if canSend then some err else none
    let ex : Bool :=
      match opts with
      | none => false
      | some o => o.Fatal
    ⟨sent, ex⟩

/-! ## Lemmas about the string model -/

theorem lastIndex?_eq_none (c : Char) (l : GoStr) (h : c ∉ l) :
    lastIndex? c l = none := by
  induction l with
  | nil => rfl
  | cons x xs ih =>
    simp only [List.mem_cons, not_or] at h
    simp only [lastIndex?, ih h.2]
    exact if_neg fun hx => h.1 hx.symm

theorem not_mem_of_lastIndex?_none (c : Char) (l : GoStr)
    (h : lastIndex? c l = none) : c ∉ l := by
  induction l with
  | nil => simp
  | cons x xs ih =>
    simp only [lastIndex?] at h
    cases hx : lastIndex? c xs with
    | some i => rw [hx] at h; simp at h
    | none =>
      rw [hx] at h
      by_cases hxc : x = c
      · rw [if_pos hxc] at h; simp at h
      · simp only [List.mem_cons, not_or]
        exact ⟨fun hcx => hxc hcx.symm, ih hx⟩

theorem lastIndex?_append_last (c : Char) (xs ys : GoStr) (h : c ∉ ys) :
    lastIndex? c (xs ++ c :: ys) = some xs.length := by
  induction xs with
  | nil =>
    simp [lastIndex?, lastIndex?_eq_none c ys h]
  | cons x xs ih =>
    simp only [List.cons_append, List.append_eq, lastIndex?, ih, List.length_cons]

theorem drop_append_cons (xs ys : GoStr) (x : Char) :
    (xs ++ x :: ys).drop (xs.length + 1) = ys := by
  induction xs with
  | nil => rfl
  | cons a as ih =>
    simp only [List.cons_append, List.length_cons, List.drop_succ_cons]
    exact ih

theorem not_mem_drop_lastIndex? (c : Char) (l : GoStr) (i : Nat)
    (h : lastIndex? c l = some i) : c ∉ l.drop (i + 1) := by
  induction l generalizing i with
  | nil => simp [lastIndex?] at h
  | cons x xs ih =>
    simp only [lastIndex?] at h
    cases hx : lastIndex? c xs with
    | some j =>
      rw [hx] at h
      injection h with h
      subst h
      simpa using ih j hx
    | none =>
      rw [hx] at h
      by_cases hxc : x = c
      · rw [if_pos hxc] at h
        injection h with h
        subst h
        simpa using not_mem_of_lastIndex?_none c xs hx
      · rw [if_neg hxc] at h; simp at h

theorem dot_not_mem_simplifyFuncName (fn : GoStr) :
    '.' ∉ simplifyFuncName fn := by
  simp only [simplifyFuncName]
  generalize (match lastIndex? '/' fn with
    | some i => fn.drop (i + 1)
    | none => fn) = fn1
  cases h : lastIndex? '.' fn1 with
  | some i => simpa using not_mem_drop_lastIndex? '.' fn1 i h
  | none => simpa using not_mem_of_lastIndex?_none '.' fn1 h

theorem mem_of_strHasPre (pat s : GoStr) (h : strHasPre pat s = true) :
    ∀ c ∈ pat, c ∈ s := by
  induction pat generalizing s with
  | nil => simp
  | cons p ps ih =>
    cases s with
    | nil => simp [strHasPre] at h
    | cons x xs =>
      simp only [strHasPre, Bool.and_eq_true, decide_eq_true_eq] at h
      intro c hc
      rcases List.mem_cons.mp hc with rfl | hcp
      · simp [h.1]
      · exact List.mem_cons_of_mem _ (ih xs h.2 c hcp)

theorem mem_of_strContains (pat s : GoStr) (h : strContains pat s = true) :
    ∀ c ∈ pat, c ∈ s := by
  induction s with
  | nil =>
    intro c hc
    cases pat with
    | nil => simp at hc
    | cons p ps => simp [strContains, strHasPre] at h
  | cons x xs ih =>
    simp only [strContains, Bool.or_eq_true] at h
    rcases h with h | h
    · exact mem_of_strHasPre pat _ h
    · exact fun c hc => List.mem_cons_of_mem _ (ih h c hc)

theorem strHasPre_eq_false (pat s : GoStr) (c : Char) (hc : c ∈ pat)
    (hs : c ∉ s) : strHasPre pat s = false := by
  by_contra h
  exact hs (mem_of_strHasPre pat s (by simpa using h) c hc)

theorem strContains_eq_false (pat s : GoStr) (c : Char) (hc : c ∈ pat)
    (hs : c ∉ s) : strContains pat s = false := by
  by_contra h
  exact hs (mem_of_strContains pat s (by simpa using h) c hc)

/-! ## Claim theorems -/

/-- C3: for every fully qualified function name — a string of the form
`p ++ "/" ++ q` where the last path separator precedes `q`, and `q` ends in
`"." ++ s` with `s` the innermost bare name — `simplifyFuncName` strips
everything up to and including the last `/` and then everything up to and
including the last `.`, leaving only `s`. -/
theorem simplifyFuncName_keeps_innermost (p q r s : GoStr)
    (hq : '/' ∉ q) (hsplit : q = r ++ '.' :: s) (hs : '.' ∉ s) :
    simplifyFuncName (p ++ '/' :: q) = s := by
  subst hsplit
  have h1 : lastIndex? '/' (p ++ '/' :: (r ++ '.' :: s)) = some p.length :=
    lastIndex?_append_last '/' p _ hq
  have h3 : lastIndex? '.' (r ++ '.' :: s) = some r.length :=
    lastIndex?_append_last '.' r s hs
  simp only [simplifyFuncName, h1, drop_append_cons, h3]

/-- Witness for C3 at the qualified method name from the specification. -/
theorem simplifyFuncName_keeps_innermost_witness :
    simplifyFuncName (gs "github.com/user/project/pkg/module.(*Type).Method")
      = gs "Method" := by
  have h := simplifyFuncName_keeps_innermost
    (gs "github.com/user/project/pkg") (gs "module.(*Type).Method")
    (gs "module.(*Type)") (gs "Method") (by decide) (by decide) (by decide)
  have e : gs "github.com/user/project/pkg/module.(*Type).Method"
      = gs "github.com/user/project/pkg" ++ '/' :: gs "module.(*Type).Method" := by
    decide
  rw [e, h]

/-- C6: the panic-recovery stack walk keeps at most 32 frames, and every
frame of the resulting trace has a function name that is not
runtime-internal, not from the logging or JSON library internals, and does
not contain `.Recover` or `.SlogGroup` as a substring. -/
theorem captureStackTrace_bounded_filtered (callers : List RawFrame) :
    (captureStackTrace callers).length ≤ 32 ∧
    ∀ f ∈ captureStackTrace callers,
      strHasPre (gs "runtime.") f.funcName = false ∧
      strContains (gs "/log/slog.") f.funcName = false ∧
      strContains (gs "log/slog.") f.funcName = false ∧
      strContains (gs "encoding/json.") f.funcName = false ∧
      strContains (gs ".Recover") f.funcName = false ∧
      strContains (gs ".SlogGroup") f.funcName = false := by
  constructor
  · have h1 : (captureStackTrace callers).length
        ≤ (callers.take 32).length := by
      simpa [captureStackTrace] using
        List.length_filter_le (fun fr => ¬ isInternalFrame fr.function)
          (callers.take 32)
    exact le_trans h1 (by simp [List.length_take])
  · intro f hf
    simp only [captureStackTrace] at hf
    obtain ⟨raw, hraw, rfl⟩ := List.mem_map.mp hf
    have hnd := dot_not_mem_simplifyFuncName raw.function
    exact ⟨strHasPre_eq_false _ _ '.' (by decide) hnd,
      strContains_eq_false _ _ '.' (by decide) hnd,
      strContains_eq_false _ _ '.' (by decide) hnd,
      strContains_eq_false _ _ '.' (by decide) hnd,
      strContains_eq_false _ _ '.' (by decide) hnd,
      strContains_eq_false _ _ '.' (by decide) hnd⟩

/-- Witness for C6 on a one-frame application stack. -/
theorem captureStackTrace_bounded_filtered_witness :
    (captureStackTrace [⟨gs "main.work", gs "main.go", 10⟩]).length ≤ 32 ∧
    strHasPre (gs "runtime.") (gs "work") = false := by
  have h := captureStackTrace_bounded_filtered [⟨gs "main.work", gs "main.go", 10⟩]
  exact ⟨h.1, (h.2 ⟨gs "work", gs "main.go", 10, []⟩ (by decide)).1⟩

/-- C1 counterexample: for a failure that is already a Wrapped Error with
one frame, wrapping twice yields a frame list of length 3, not 2 — the
claim's "length 2" fails for such a (non-nil) failure. -/
theorem doubleWrap_length_cex :
    (framesOfOpt (WrapWithMessage (WrapWithMessage
        (some (.ew (.plain (gs "root")) [⟨gs "g", gs "f.go", 1, []⟩] none))
        ⟨true, gs "main.main", gs "main.go", 5⟩ (gs "a"))
        ⟨true, gs "main.main", gs "main.go", 6⟩ (gs "b"))).length ≠ 2 := by
  decide

/-- C1 (amended): for every non-nil failure `f` that neither is nor wraps a
Wrapped Error, wrapping twice flattens rather than nests: the result is a
single Wrapped Error whose frame list has length 2 with the `b` frame at
index 0 and the `a` frame at index 1, and whose root cause message equals
`f`'s message. -/
theorem doubleWrap_flattens (f : GoError) (c₁ c₂ : CallerResult) (a b : GoStr)
    (h : asErrorWrapper f = none) :
    WrapWithMessage (WrapWithMessage (some f) c₁ a) c₂ b
      = some (.ew f [captureFrame c₂ b, captureFrame c₁ a] none) ∧
    (framesOfOpt (WrapWithMessage (WrapWithMessage (some f) c₁ a) c₂ b)).length
      = 2 ∧
    (framesOfOpt (WrapWithMessage (WrapWithMessage (some f) c₁ a) c₂ b)).map
      Frame.message = [b, a] ∧
    errMsg (.ew f [captureFrame c₂ b, captureFrame c₁ a] none) = errMsg f := by
  have h1 : WrapWithMessage (some f) c₁ a
      = some (.ew f [captureFrame c₁ a] none) := by
    simp [WrapWithMessage, wrapWithSkip, h, EWView.toGoError]
  have h2 : WrapWithMessage (WrapWithMessage (some f) c₁ a) c₂ b
      = some (.ew f [captureFrame c₂ b, captureFrame c₁ a] none) := by
    rw [h1]
    simp [WrapWithMessage, wrapWithSkip, asErrorWrapper, EWView.toGoError]
  refine ⟨h2, ?_, ?_, rfl⟩
  · rw [h2]; rfl
  · rw [h2]; rfl

/-- Witness for C1 (amended) at a plain failure. -/
theorem doubleWrap_flattens_witness :
    WrapWithMessage (WrapWithMessage (some (.plain (gs "boom")))
        ⟨true, gs "main.main", gs "main.go", 5⟩ (gs "a"))
        ⟨true, gs "main.main", gs "main.go", 6⟩ (gs "b")
      = some (.ew (.plain (gs "boom"))
          [captureFrame ⟨true, gs "main.main", gs "main.go", 6⟩ (gs "b"),
           captureFrame ⟨true, gs "main.main", gs "main.go", 5⟩ (gs "a")]
          none) :=
  (doubleWrap_flattens (.plain (gs "boom"))
    ⟨true, gs "main.main", gs "main.go", 5⟩
    ⟨true, gs "main.main", gs "main.go", 6⟩
    (gs "a") (gs "b") (by decide)).1

/-- The C2 agreement property between the JSON rendering and the slog
rendering of one Wrapped Error: the JSON `error` equals the group's
`error_text`, and the group carries a `stack_trace` attribute holding
exactly the JSON `stack_trace` frames (keys present as serialized,
`message` only when non-empty) in the same order. -/
def jsonSlogAgree (w : EWView) : Prop :=
  lookupAttr (gs "error_text") (SlogGroup (some w.toGoError)).2
      = some (.vStr (MarshalJSON w).error) ∧
  lookupAttr (gs "stack_trace") (SlogGroup (some w.toGoError)).2
      = some (.vTrace ((MarshalJSON w).stack_trace.map toEntry))

/-- C2 counterexample: a Wrapped Error with an empty frame list — as
`WrapRecovered` produces under `WithoutStack` — has a JSON document with an
empty `stack_trace` array, while its slog group omits the `stack_trace`
attribute, so the two renderings do not agree as claimed. -/
theorem json_slog_cex :
    WrapRecovered (some ⟨true, false, false⟩) (.other (gs "boom")) []
        = EWView.toGoError ⟨.plain (gs "boom"), [], none⟩ ∧
    ¬ jsonSlogAgree ⟨.plain (gs "boom"), [], none⟩ := by
  constructor
  · rfl
  · unfold jsonSlogAgree
    decide

/-- C2 (amended): for every Wrapped Error the JSON `error` field equals the
slog group's `error_text`; when the frame list is non-empty the slog
`stack_trace` entry holds the same frames as the JSON array in the same
order (`message` present only when non-empty); when the frame list is empty
the JSON array is empty and the slog group omits `stack_trace`. -/
theorem json_slog_agree (w : EWView) :
    lookupAttr (gs "error_text") (SlogGroup (some w.toGoError)).2
        = some (.vStr (MarshalJSON w).error) ∧
    (w.frames ≠ [] →
      lookupAttr (gs "stack_trace") (SlogGroup (some w.toGoError)).2
        = some (.vTrace ((MarshalJSON w).stack_trace.map toEntry))) ∧
    (w.frames = [] →
      lookupAttr (gs "stack_trace") (SlogGroup (some w.toGoError)).2 = none ∧
      (MarshalJSON w).stack_trace = []) := by
  have hAs : asErrorWrapper w.toGoError = some ⟨w.err, w.frames, w.fields⟩ := rfl
  have hmap : w.frames.map frameEntry
      = (MarshalJSON w).stack_trace.map toEntry := by
    simp only [MarshalJSON, List.map_map]
    exact List.map_congr_left fun f _ => rfl
  by_cases hf : w.frames = []
  · refine ⟨?_, fun hne => absurd hf hne, fun _ => ⟨?_, ?_⟩⟩
    · simp [SlogGroup, hAs, hf, lookupAttr, MarshalJSON]
    · simp [SlogGroup, hAs, hf, lookupAttr]
      decide
    · simp [MarshalJSON, hf]
  · refine ⟨?_, fun _ => ?_, fun he => absurd he hf⟩
    · simp [SlogGroup, hAs, hf, lookupAttr, MarshalJSON]
    · rw [← hmap]
      simp [SlogGroup, hAs, hf, lookupAttr]
      decide

/-- Witness for C2 (amended) at a one-frame Wrapped Error. -/
theorem json_slog_agree_witness :
    lookupAttr (gs "error_text")
        (SlogGroup (some (EWView.toGoError
          ⟨.plain (gs "root"), [⟨gs "main", gs "m.go", 3, gs "ctx"⟩], none⟩))).2
      = some (.vStr (MarshalJSON
          ⟨.plain (gs "root"), [⟨gs "main", gs "m.go", 3, gs "ctx"⟩], none⟩).error) ∧
    lookupAttr (gs "stack_trace")
        (SlogGroup (some (EWView.toGoError
          ⟨.plain (gs "root"), [⟨gs "main", gs "m.go", 3, gs "ctx"⟩], none⟩))).2
      = some (.vTrace ((MarshalJSON
          ⟨.plain (gs "root"), [⟨gs "main", gs "m.go", 3, gs "ctx"⟩], none⟩).stack_trace.map
            toEntry)) := by
  have h := json_slog_agree ⟨.plain (gs "root"), [⟨gs "main", gs "m.go", 3, gs "ctx"⟩], none⟩
  exact ⟨h.1, h.2.1 (by decide)⟩

/-- C4: for every non-nil plain failure that neither is nor wraps a Wrapped
Error, `SlogGroup` emits a group containing only the `error_text` attribute
equal to the failure's message, with no `stack_trace` attribute. -/
theorem slogGroup_plain_only_error_text (e : GoError)
    (h : asErrorWrapper e = none) :
    SlogGroup (some e) = (gs "error", [⟨gs "error_text", .vStr (errMsg e)⟩]) := by
  simp [SlogGroup, h]

/-- Witness for C4 at a plain failure. -/
theorem slogGroup_plain_only_error_text_witness :
    SlogGroup (some (.plain (gs "simple error")))
      = (gs "error", [⟨gs "error_text", .vStr (errMsg (.plain (gs "simple error")))⟩]) :=
  slogGroup_plain_only_error_text (.plain (gs "simple error")) (by decide)

/-- C5: passing nil options to `Recover`, `RecoverToChannel` and
`WrapRecovered` is equivalent to passing the all-defaults configuration;
under an active panic, `Recover(nil, callback)` invokes the callback exactly
once with the freshly built (non-nil) wrapped error, captures the stack,
and does not terminate the process. -/
theorem recover_nil_opts_defaults (r? : Option PanicVal) (r : PanicVal)
    (captured : List Frame) (canSend : Bool) :
    Recover none r? captured = Recover (some defaultOpts) r? captured ∧
    RecoverToChannel none r? captured canSend
      = RecoverToChannel (some defaultOpts) r? captured canSend ∧
    WrapRecovered none r captured = WrapRecovered (some defaultOpts) r captured ∧
    (Recover none (some r) captured).callbackErrs
      = [WrapRecovered none r captured] ∧
    (Recover none (some r) captured).exited = false ∧
    framesOfE (WrapRecovered none r captured) = captured := by
  cases r? <;> exact ⟨rfl, rfl, rfl, rfl, rfl, rfl⟩

/-- C7: when `RecoverToChannel` runs under an active panic and the channel
cannot accept the value immediately, the error is silently dropped: nothing
is sent, so no value is observable on the channel afterward. -/
theorem recoverToChannel_full_drops (opts : Option RecoverOpts) (r : PanicVal)
    (captured : List Frame) :
    (RecoverToChannel opts (some r) captured false).sent = none := by
  cases opts with
  | none => rfl
  | some o =>
    simp only [RecoverToChannel]
    by_cases h : o.RecoverOnly <;> simp [h]

/-- C8: wrapping a nil failure is a no-op returning nil for all three wrap
operations, for any message, call site and field sets; the nil short-circuit
happens before any frame capture. -/
theorem wrap_nil_noop (c : CallerResult) (m : GoStr) (fs : List Fields) :
    Wrap none c = none ∧ WrapWithMessage none c m = none ∧
    WrapWithFields none c fs = none :=
  ⟨rfl, rfl, rfl⟩

/-- C9: `SlogGroup` on a nil failure returns the fixed placeholder group
named `error` with `error_text = "nil"` and a one-entry synthetic
stack trace whose only key is `message = "nil"`. -/
theorem slogGroup_nil_placeholder :
    SlogGroup none
      = (gs "error",
          [⟨gs "error_text", .vStr (gs "nil")⟩,
           ⟨gs "stack_trace", .vTrace [⟨none, none, none, some (gs "nil")⟩]⟩]) :=
  rfl

/-- C10: `Fields.Get` returns the value of the first pair with the given
key in insertion order and `none` when the key is absent, while duplicate
keys are preserved in the stored list (`wrapWithSkip` appends new fields
without deduplication), so the first-inserted value wins on lookup. -/
theorem fields_get_first_wins :
    (∀ (pre mid post : List FieldKV) (k : GoStr) (v₁ v₂ : Val),
        (∀ kv ∈ pre, kv.key ≠ k) →
        Fields.Get ⟨pre ++ ⟨k, v₁⟩ :: mid ++ ⟨k, v₂⟩ :: post⟩ k = some v₁) ∧
    (∀ (l : List FieldKV) (k : GoStr),
        (∀ kv ∈ l, kv.key ≠ k) → Fields.Get ⟨l⟩ k = none) ∧
    (∀ (e : GoError) (frames : List Frame) (fields : Option Fields)
        (c : CallerResult) (fl : Fields), fl.list ≠ [] →
        (wrapWithSkip (.ew e frames fields) c [] (some fl)).fields
          = some ⟨(match fields with | some f => f.list | none => []) ++ fl.list⟩) := by
  refine ⟨?_, ?_, ?_⟩
  · intro pre mid post k v₁ v₂ hpre
    induction pre with
    | nil => simp [Fields.Get, getLoop]
    | cons kv rest ih =>
      simp only [List.mem_cons, forall_eq_or_imp] at hpre
      simp only [Fields.Get, getLoop, List.cons_append, if_neg hpre.1]
      exact ih hpre.2
  · intro l k hl
    induction l with
    | nil => rfl
    | cons kv rest ih =>
      simp only [List.mem_cons, forall_eq_or_imp] at hl
      simp only [Fields.Get, getLoop, if_neg hl.1]
      exact ih hl.2
  · intro e frames fields c fl hfl
    simp [wrapWithSkip, asErrorWrapper, hfl]

/-- Witness for C10: with a duplicated key the first-inserted value wins;
a missing key yields `none`. -/
theorem fields_get_first_wins_witness :
    Fields.Get ⟨[⟨gs "a", .vInt 9⟩] ++ ⟨gs "k", .vInt 1⟩ :: [] ++ ⟨gs "k", .vInt 2⟩ :: []⟩
        (gs "k") = some (.vInt 1) ∧
    Fields.Get ⟨[⟨gs "a", .vInt 9⟩]⟩ (gs "k") = none := by
  have h := fields_get_first_wins
  exact ⟨h.1 [⟨gs "a", .vInt 9⟩] [] [] (gs "k") (.vInt 1) (.vInt 2) (by decide),
    h.2.1 [⟨gs "a", .vInt 9⟩] (gs "k") (by decide)⟩

end E
